import Mathlib

/-!
Shallow embedding of the aggregation and reconciliation engine of the
sales-pivot dashboard (`app.py`): cluster classification of employee
names, grouping of the sales and OB datasets by (cluster, employee),
outer-merge reconciliation, cluster/employee rollup with targets,
the BU performance table, and the upload route's column validation.

Modelling conventions:
* numeric cell values are exact rationals; Python `round(x, n)`
  (round half to even) is `pyRound`;
* a non-string / missing scalar cell is `PyVal.na` (pandas `groupby`
  drops rows whose group key is missing);
* pandas `NaN` propagating through the cluster-target computation is
  modelled by `Option ℚ` with `none` for NaN/None (both render as a
  blank cell in the emitted table);
* pandas `groupby` with default `sort=True` emits group keys in
  lexicographic order, and `pd.merge(..., how="outer")` sorts the join
  keys lexicographically (documented pandas semantics), so grouping and
  merging are modelled as sorting the deduplicated key set.
-/

namespace SalesPivot

/-- Floor of a rational as an integer (computable form of `Int.floor`). -/
def ratFloor (q : ℚ) : ℤ := q.num.fdiv q.den

/-- Round half to even (banker's rounding) to an integer, as Python `round`. -/
def roundHalfEven (q : ℚ) : ℤ :=
  let f := ratFloor q
  let frac := q - f
  if frac < 1/2 then f
  else if 1/2 < frac then f + 1
  else if 2 ∣ f then f else f + 1

/-- Python `round(q, nd)` on exact rationals. -/
def pyRound (q : ℚ) (nd : ℕ) : ℚ :=
  (roundHalfEven (q * 10 ^ nd) : ℚ) / 10 ^ nd

/-- Does `p` occur as a contiguous sublist of the second list?
(Python substring membership `p in s`.) -/
def infixB (p : List Char) : List Char → Bool
  | [] => p.isEmpty
  | c :: cs => p.isPrefixOf (c :: cs) || infixB p cs

/-- Python `pat in s` for strings (contiguous substring containment). -/
def strContains (s pat : String) : Bool := infixB pat.data s.data

/-- Python `s.startswith(pre)`. -/
def strStartsWith (s pre : String) : Bool := pre.data.isPrefixOf s.data

/-- A spreadsheet cell holding either a string or a non-string/missing
value (`na` models NaN or any non-string scalar). -/
inductive PyVal where
  | str (s : String)
  | na
deriving DecidableEq

/-- One input transaction row: columns `Employee Responsible`,
`Helios Code` and the measure column `MINR-2025`. -/
structure Row where
  emp : PyVal
  helios : PyVal
  value : ℚ
deriving DecidableEq

/-- `EMPLOYEE_CLUSTER_MAP` from `app.py`, in its insertion order. -/
def EMPLOYEE_CLUSTER_MAP : List (String × String) :=
  [("Pritesh", "CG"), ("Abinash", "CG"), ("Mayur", "CG"),
   ("TBH", "CG"), ("Arti", "CG"),
   ("Arun", "OD"), ("Abhishek", "OD"), ("Bodhis", "OD"), ("Mahesh", "OD"),
   ("MD FAZLE MURSHED", "OD"),
   ("Rahul", "B+R"), ("Harsh", "B+R"), ("Vikash", "B+R"), ("Nagender", "B+R"),
   ("Sunny", "JSR"),
   ("Priyanka Auddy", "JSR")]

def DEFAULT_CLUSTER : String := "OD"

def EMP_SCALE : ℚ := 1

def EMP_DEC : ℕ := 2

/-- The scan loop inside `get_cluster`: first pattern that occurs as a
substring wins; fall through to the default cluster. -/
def get_cluster_go (s : String) : List (String × String) → String
  | [] => DEFAULT_CLUSTER
  | (p, c) :: rest => if strContains s p then c else get_cluster_go s rest

/-- `get_cluster` from `app.py`: substring scan over
`EMPLOYEE_CLUSTER_MAP` for string input, default cluster otherwise. -/
def get_cluster (v : PyVal) : String :=
  match v with
  | .str s => get_cluster_go s EMPLOYEE_CLUSTER_MAP
  | .na => DEFAULT_CLUSTER

/-- Group key of a row for `groupby(["Cluster", "Employee Responsible"])`:
the derived cluster together with the employee name; a row with a
missing employee is dropped by pandas `groupby`. -/
def rowKey (r : Row) : Option (String × String) :=
  match r.emp with
  | .str e => some (get_cluster r.emp, e)
  | .na => none

/-- Sum of the measure over the rows with group key `k` (the source
group sum; `0` when no row has that key). -/
def rawSum (rows : List Row) (k : String × String) : ℚ :=
  ((rows.filter (fun r => rowKey r == some k)).map Row.value).sum

/-- Sum of the measure over the rows classified to cluster `c`
(rows with a missing employee excluded, as `groupby` drops them). -/
def clusterRawSum (rows : List Row) (c : String) : ℚ :=
  ((rows.filter (fun r =>
      match rowKey r with
      | some k => k.1 == c
      | none => false)).map Row.value).sum

/-- Strict comparison of characters by code point. -/
def charLtB (a b : Char) : Bool := a.val < b.val

/-- Lexicographic comparison of character lists (Python string order). -/
def listLtB : List Char → List Char → Bool
  | [], [] => false
  | [], _ :: _ => true
  | _ :: _, [] => false
  | a :: as, b :: bs => charLtB a b || (a == b && listLtB as bs)

/-- Python string comparison: lexicographic by code point. -/
def strLtB (a b : String) : Bool := listLtB a.data b.data

def strLeB (a b : String) : Bool := strLtB a b || a == b

/-- Lexicographic order on (cluster, employee) keys, as pandas sorts them. -/
def keyLeB (a b : String × String) : Bool :=
  strLtB a.1 b.1 || (a.1 == b.1 && strLeB a.2 b.2)

def keyLE (a b : String × String) : Prop := keyLeB a b = true

instance : DecidableRel keyLE :=
  fun a b => inferInstanceAs (Decidable (keyLeB a b = true))

/-- Sort group keys lexicographically, as pandas `groupby`/outer `merge` do. -/
def sortKeys (l : List (String × String)) : List (String × String) :=
  l.insertionSort keyLE

/-- Helper for `dedupFirst`: drop elements already seen. -/
def dedupFirstAux {α : Type} [DecidableEq α] (seen : List α) : List α → List α
  | [] => []
  | a :: as =>
    if seen.contains a then dedupFirstAux seen as
    else a :: dedupFirstAux (a :: seen) as

/-- Remove duplicates keeping the first occurrence of each element. -/
def dedupFirst {α : Type} [DecidableEq α] (l : List α) : List α :=
  dedupFirstAux [] l

/-- `df.groupby(["Cluster", "Employee Responsible"])[col].sum().reset_index()`:
one output row per distinct key, keys sorted, value the source group sum. -/
def groupOne (rows : List Row) : List ((String × String) × ℚ) :=
  (sortKeys (dedupFirst (rows.filterMap rowKey))).map (fun k => (k, rawSum rows k))

/-- Value of a grouped table at key `k`, with the merge's `fillna(0)`
substituted for an absent key. -/
def lookup0 (g : List ((String × String) × ℚ)) (k : String × String) : ℚ :=
  match g.find? (fun p => p.1 == k) with
  | some p => p.2
  | none => 0

/-- One row of the reconciled (outer-merged) table. -/
structure MRow where
  key : String × String
  obv : ℚ
  salesv : ℚ
deriving DecidableEq

/-- `pd.merge(grp_ob, grp_sales, on=["Cluster", "Employee Responsible"],
how="outer").fillna(0)`: one row per key of either side, keys sorted
lexicographically, absent sides filled with 0. -/
def mergeGroups (obG salesG : List ((String × String) × ℚ)) : List MRow :=
  (sortKeys (dedupFirst (obG.map Prod.fst ++ salesG.map Prod.fst))).map
    (fun k => ⟨k, lookup0 obG k, lookup0 salesG k⟩)

/-- Python `dict.get`: `none` when the key is absent. -/
def dictGet (d : List (String × ℚ)) (k : String) : Option ℚ :=
  (d.find? (fun p => p.1 == k)).map Prod.snd

/-- `emp_targets.get(clust, sub["Employee Responsible"].map(emp_targets)
.sum(min_count=1))`: cluster-label override, else the sum of the member
targets that are present, else NaN (modelled `none`) when no member of
the cluster appears in the target table. -/
def clusterTarget (tgts : List (String × ℚ)) (clust : String)
    (members : List String) : Option ℚ :=
  match dictGet tgts clust with
  | some t => some t
  | none =>
    let present := members.filterMap (dictGet tgts)
    if present.isEmpty then none else some present.sum

/-- Cluster subtotal row as emitted by the rollup loop (`Option` fields
are blank cells: None or NaN in the source). -/
structure SubtotalRow where
  cluster : String
  label : String
  obTotal : ℚ
  obRemaining : Option ℚ
  obAchiev : Option ℚ
  salesTotal : ℚ
  salesRemaining : Option ℚ
  salesAchiev : Option ℚ
  target : Option ℚ
deriving DecidableEq

/-- Employee row as emitted by the rollup loop. -/
structure EmpRow where
  cluster : String
  name : String
  obTotal : ℚ
  obRemaining : ℚ
  obAchiev : ℚ
  salesTotal : ℚ
  salesRemaining : ℚ
  salesAchiev : ℚ
  target : ℚ
deriving DecidableEq

/-- Body of the per-cluster subtotal computation (`app.py` lines
151-171). Python truthiness `if cl_target_mn` computes the achievement
for every nonzero non-null target (NaN, which is truthy, yields a NaN
achievement that renders blank, so NaN and the zero/None falsy cases
all emit a blank cell, modelled `none`). -/
def mkSubtotal (tgts : List (String × ℚ)) (clust : String)
    (sub : List MRow) : SubtotalRow :=
  let subtotal_ob := (sub.map MRow.obv).sum
  let subtotal_sales := (sub.map MRow.salesv).sum
  let total_ob_mn := pyRound (subtotal_ob / EMP_SCALE) EMP_DEC
  let total_sales_mn := pyRound (subtotal_sales / EMP_SCALE) EMP_DEC
  let cl_target0 := clusterTarget tgts clust (sub.map (fun r => r.key.2))
  let cl_target := cl_target0.map (fun t => pyRound t EMP_DEC)
  let cl_target_mn := cl_target.map (fun t => pyRound (t / EMP_SCALE) EMP_DEC)
  let remaining_ob := cl_target_mn.map (fun t => pyRound (t - total_ob_mn) EMP_DEC)
  let remaining_sales := cl_target_mn.map (fun t => pyRound (t - total_sales_mn) EMP_DEC)
  let achv_ob :=
    match cl_target_mn with
    | some t => if t ≠ 0 then some (pyRound (total_ob_mn / t * 100) 2) else none
    | none => none
  let achv_sales :=
    match cl_target_mn with
    | some t => if t ≠ 0 then some (pyRound (total_sales_mn / t * 100) 2) else none
    | none => none
  { cluster := clust, label := clust ++ " Total",
    obTotal := total_ob_mn, obRemaining := remaining_ob, obAchiev := achv_ob,
    salesTotal := total_sales_mn, salesRemaining := remaining_sales,
    salesAchiev := achv_sales, target := cl_target_mn }

/-- Body of the per-employee row computation (`app.py` lines 172-189). -/
def mkEmpRow (tgts : List (String × ℚ)) (clust : String) (r : MRow) : EmpRow :=
  let name := r.key.2
  let tgt := (dictGet tgts name).getD 0
  let tgt_mn := if tgt > 0 then pyRound (tgt / EMP_SCALE) EMP_DEC else 0
  let ob_total := pyRound (r.obv / EMP_SCALE) EMP_DEC
  let sales_total := pyRound (r.salesv / EMP_SCALE) EMP_DEC
  let ob_rem := if tgt_mn > 0 then pyRound (tgt_mn - ob_total) EMP_DEC else 0
  let sales_rem := if tgt_mn > 0 then pyRound (tgt_mn - sales_total) EMP_DEC else 0
  let ob_ach := if tgt_mn > 0 then pyRound (ob_total / tgt_mn * 100) 2 else 0
  let sales_ach := if tgt_mn > 0 then pyRound (sales_total / tgt_mn * 100) 2 else 0
  { cluster := clust, name := name,
    obTotal := ob_total, obRemaining := ob_rem, obAchiev := ob_ach,
    salesTotal := sales_total, salesRemaining := sales_rem,
    salesAchiev := sales_ach, target := tgt_mn }

/-- `merged.groupby("Cluster", sort=False)` iterates clusters in first
appearance order of the merged table. -/
def clusterList (m : List MRow) : List String :=
  dedupFirst (m.map (fun r => r.key.1))

/-- The whole PIVOT-2 computation: group both datasets, outer-merge,
then emit one subtotal row and the member employee rows per cluster. -/
def pivot2Blocks (ob sales : List Row) (tgts : List (String × ℚ)) :
    List (SubtotalRow × List EmpRow) :=
  let m := mergeGroups (groupOne ob) (groupOne sales)
  (clusterList m).map (fun c =>
    let sub := m.filter (fun r => r.key.1 == c)
    (mkSubtotal tgts c sub, sub.map (mkEmpRow tgts c)))

/-- `get_bu_from_helios` from `app.py`: ordered prefix rules on the
Helios code; non-string or unmatched input yields "Other". -/
def get_bu_from_helios (v : PyVal) : String :=
  match v with
  | .str s =>
    if strStartsWith s "PP" then "PP"
    else if strStartsWith s "HD" then "H&D"
    else if strStartsWith s "ID" then "IND"
    else if strStartsWith s "SP" || strStartsWith s "PS" then "SP"
    else if strStartsWith s "DP" || strStartsWith s "DE" then "DE"
    else "Other"
  | .na => "Other"

/-- Sum of the measure over the rows whose Helios code classifies to BU
`bu` (the BU group sum; 0 when the BU has no rows). -/
def buSum (rows : List Row) (bu : String) : ℚ :=
  ((rows.filter (fun r => get_bu_from_helios r.helios == bu)).map Row.value).sum

/-- Python `f-string` rendering of a float that carries at most two
decimal places (the result of `round(x, 2)`): shortest decimal form
with at least one fractional digit, as `repr` of such a float shows. -/
def pyFloat2Str (q : ℚ) : String :=
  let aq := if q < 0 then -q else q
  let n : ℤ := ratFloor (aq * 100)
  let ip := n / 100
  let f := n % 100
  let sign := if q < 0 then "-" else ""
  let fracStr :=
    if f = 0 then "0"
    else if f % 10 = 0 then toString (f / 10)
    else if f < 10 then "0" ++ toString f
    else toString f
  sign ++ toString ip ++ "." ++ fracStr

/-- One row of the BU Wise Performance table. -/
structure BURow where
  bu : String
  ob_mn : ℚ
  remaining_ob_mn : ℚ
  ach_ob : String
  sales_mn : ℚ
  remaining_sales_mn : ℚ
  ach_sales : String
  target_mn : ℚ
deriving DecidableEq

/-- The BU performance loop (`app.py` lines 224-248): one row per entry
of the BU targets dict, in dict order; achievement is the f-string of
`round(value/target*100, 2)` with a percent sign when the target is
truthy, else the literal "0.00%". -/
def buPerformance (sales ob : List Row) (buT : List (String × ℚ)) : List BURow :=
  buT.map (fun p =>
    let bu := p.1
    let tgt := p.2
    let salesv := buSum sales bu
    let obv := buSum ob bu
    let remaining_sales := tgt - salesv
    let remaining_ob := tgt - obv
    let ach_sales :=
      if tgt ≠ 0 then pyFloat2Str (pyRound (salesv / tgt * 100) 2) ++ "%" else "0.00%"
    let ach_ob :=
      if tgt ≠ 0 then pyFloat2Str (pyRound (obv / tgt * 100) 2) ++ "%" else "0.00%"
    { bu := bu,
      ob_mn := pyRound (obv / EMP_SCALE) EMP_DEC,
      remaining_ob_mn := pyRound (remaining_ob / EMP_SCALE) EMP_DEC,
      ach_ob := ach_ob,
      sales_mn := pyRound (salesv / EMP_SCALE) EMP_DEC,
      remaining_sales_mn := pyRound (remaining_sales / EMP_SCALE) EMP_DEC,
      ach_sales := ach_sales,
      target_mn := pyRound (tgt / EMP_SCALE) EMP_DEC })

/-- Outcome of the upload route's column-handling phase. -/
inductive UploadResult where
  | ok
  | badRequest (msg : String)
  | pyException (msg : String)
deriving DecidableEq

def ID_COLS : List String := ["Cluster", "Employee Responsible", "Helios Code"]

/-- Assigning the derived `Cluster` column appends it when absent. -/
def addClusterCol (cols : List String) : List String :=
  if cols.contains "Cluster" then cols else cols ++ ["Cluster"]

/-- The column-handling phase of the upload route (`app.py` lines
104-129): the per-dataframe loop first evaluates the employee column to
derive `Cluster` (a KeyError escapes the route, unhandled, when that
column is absent) and only afterwards runs the labelled missing-column
checks for `ID_COLS` and the measure column. -/
def uploadValidate (salesCols obCols : List String) : UploadResult :=
  if !(salesCols.contains "Employee Responsible") then
    .pyException "KeyError: \x27Employee Responsible\x27"
  else if !(obCols.contains "Employee Responsible") then
    .pyException "KeyError: \x27Employee Responsible\x27"
  else
    let sCols := addClusterCol salesCols
    let oCols := addClusterCol obCols
    let missing := ID_COLS.filter (fun c => !(sCols.contains c))
    if missing ≠ [] then
      .badRequest ("Missing column(s) in sales: " ++ String.intercalate ", " missing)
    else
      let missing_ob := ID_COLS.filter (fun c => !(oCols.contains c))
      if missing_ob ≠ [] then
        .badRequest ("Missing column(s) in OB: " ++ String.intercalate ", " missing_ob)
      else if !(sCols.contains "MINR-2025") then
        .badRequest "Column \x27MINR-2025\x27 not found in the sales sheet."
      else if !(oCols.contains "MINR-2025") then
        .badRequest "Column \x27MINR-2025\x27 not found in the OB sheet."
      else .ok

/-- Claimed iteration order, following the spec's words: clusters in
order of first appearance in the combined input data. -/
def specFirstAppearanceClusters (combined : List Row) : List String :=
  dedupFirst (combined.map (fun r => get_cluster r.emp))

/-- The amended cluster-target resolution, following the amended claim's
words: cluster-label override; else, when at least one member appears
in the target table, the sum over every member of its target with 0 for
absent members; else unresolved. -/
def resolveClusterTargetAmended (tgts : List (String × ℚ)) (clust : String)
    (members : List String) : Option ℚ :=
  match dictGet tgts clust with
  | some t => some t
  | none =>
    if members.all (fun nm => (dictGet tgts nm).isNone) then none
    else some ((members.map (fun nm => (dictGet tgts nm).getD 0)).sum)

/-! ### Order transfer lemmas -/

theorem charLtB_iff {a b : Char} : charLtB a b = true ↔ a < b := by
  simp only [charLtB, decide_eq_true_eq]
  exact Iff.rfl

theorem listLtB_iff : ∀ as bs : List Char, listLtB as bs = true ↔ as < bs := by
  intro as
  induction as with
  | nil =>
    intro bs
    cases bs with
    | nil =>
      simp only [listLtB, Bool.false_eq_true, false_iff]
      intro h
      cases h
    | cons b bs =>
      simp only [listLtB, true_iff]
      exact List.nil_lt_cons b bs
  | cons a as ih =>
    intro bs
    cases bs with
    | nil =>
      simp only [listLtB, Bool.false_eq_true, false_iff]
      intro h
      cases h
    | cons b bs =>
      simp only [listLtB, Bool.or_eq_true, Bool.and_eq_true, beq_iff_eq, charLtB_iff, ih]
      constructor
      · rintro (hab | ⟨rfl, htl⟩)
        · exact List.Lex.rel hab
        · exact List.Lex.cons htl
      · intro h
        cases h with
        | cons htl => exact Or.inr ⟨rfl, htl⟩
        | rel hab => exact Or.inl hab

theorem strLtB_iff {a b : String} : strLtB a b = true ↔ a < b := by
  rw [String.lt_iff_toList_lt]
  exact listLtB_iff a.data b.data

theorem strLeB_iff {a b : String} : strLeB a b = true ↔ a ≤ b := by
  simp only [strLeB, Bool.or_eq_true, beq_iff_eq, strLtB_iff]
  exact le_iff_lt_or_eq.symm

theorem keyLE_iff {a b : String × String} :
    keyLE a b ↔ a.1 < b.1 ∨ (a.1 = b.1 ∧ a.2 ≤ b.2) := by
  simp only [keyLE, keyLeB, Bool.or_eq_true, Bool.and_eq_true, beq_iff_eq,
    strLtB_iff, strLeB_iff]

instance : IsTrans (String × String) keyLE := by
  constructor
  intro a b c hab hbc
  rw [keyLE_iff] at hab hbc ⊢
  rcases hab with h1 | ⟨e1, l1⟩ <;> rcases hbc with h2 | ⟨e2, l2⟩
  · exact Or.inl (lt_trans h1 h2)
  · exact Or.inl (e2 ▸ h1)
  · exact Or.inl (e1 ▸ h2)
  · exact Or.inr ⟨e1.trans e2, le_trans l1 l2⟩

instance : IsTotal (String × String) keyLE := by
  constructor
  intro a b
  rw [keyLE_iff, keyLE_iff]
  rcases lt_trichotomy a.1 b.1 with h | h | h
  · exact Or.inl (Or.inl h)
  · rcases le_total a.2 b.2 with h2 | h2
    · exact Or.inl (Or.inr ⟨h, h2⟩)
    · exact Or.inr (Or.inr ⟨h.symm, h2⟩)
  · exact Or.inr (Or.inl h)

/-! ### dedupFirst lemmas -/

theorem contains_iff_mem {α : Type} [BEq α] [LawfulBEq α] {l : List α} {a : α} :
    l.contains a = true ↔ a ∈ l :=
  List.elem_iff

theorem mem_dedupFirstAux {α : Type} [DecidableEq α] {x : α} :
    ∀ (l : List α) (seen : List α),
      x ∈ dedupFirstAux seen l ↔ x ∈ l ∧ x ∉ seen := by
  intro l
  induction l with
  | nil => intro seen; simp [dedupFirstAux]
  | cons a as ih =>
    intro seen
    by_cases ha : a ∈ seen
    · rw [dedupFirstAux, if_pos (contains_iff_mem.mpr ha), ih]
      simp only [List.mem_cons]
      constructor
      · rintro ⟨hx, hs⟩; exact ⟨Or.inr hx, hs⟩
      · rintro ⟨hx | hx, hs⟩
        · exact absurd (hx ▸ ha) hs
        · exact ⟨hx, hs⟩
    · rw [dedupFirstAux, if_neg (fun hc => ha (contains_iff_mem.mp hc))]
      simp only [List.mem_cons, ih]
      constructor
      · rintro (rfl | ⟨hx, hs⟩)
        · exact ⟨Or.inl rfl, ha⟩
        · exact ⟨Or.inr hx, fun h => hs (Or.inr h)⟩
      · rintro ⟨rfl | hx, hs⟩
        · exact Or.inl rfl
        · by_cases hxa : x = a
          · exact Or.inl hxa
          · exact Or.inr ⟨hx, fun h => h.elim hxa hs⟩

theorem nodup_dedupFirstAux {α : Type} [DecidableEq α] :
    ∀ (l : List α) (seen : List α), (dedupFirstAux seen l).Nodup := by
  intro l
  induction l with
  | nil => intro seen; simp [dedupFirstAux]
  | cons a as ih =>
    intro seen
    by_cases ha : a ∈ seen
    · rw [dedupFirstAux, if_pos (contains_iff_mem.mpr ha)]; exact ih seen
    · rw [dedupFirstAux, if_neg (fun hc => ha (contains_iff_mem.mp hc))]
      refine List.Nodup.cons ?_ (ih (a :: seen))
      intro hmem
      exact ((mem_dedupFirstAux as (a :: seen)).mp hmem).2 (List.mem_cons_self a seen)

theorem dedupFirstAux_sublist {α : Type} [DecidableEq α] :
    ∀ (l : List α) (seen : List α), List.Sublist (dedupFirstAux seen l) l := by
  intro l
  induction l with
  | nil => intro seen; simp [dedupFirstAux]
  | cons a as ih =>
    intro seen
    by_cases ha : a ∈ seen
    · rw [dedupFirstAux, if_pos (contains_iff_mem.mpr ha)]
      exact (ih seen).cons a
    · rw [dedupFirstAux, if_neg (fun hc => ha (contains_iff_mem.mp hc))]
      exact (ih (a :: seen)).cons₂ a

theorem mem_dedupFirst {α : Type} [DecidableEq α] {x : α} {l : List α} :
    x ∈ dedupFirst l ↔ x ∈ l := by
  rw [dedupFirst, mem_dedupFirstAux]
  simp

theorem nodup_dedupFirst {α : Type} [DecidableEq α] (l : List α) :
    (dedupFirst l).Nodup :=
  nodup_dedupFirstAux l []

theorem dedupFirst_sublist {α : Type} [DecidableEq α] (l : List α) :
    List.Sublist (dedupFirst l) l :=
  dedupFirstAux_sublist l []

/-! ### sortKeys lemmas -/

theorem mem_sortKeys {k : String × String} {l : List (String × String)} :
    k ∈ sortKeys l ↔ k ∈ l :=
  List.mem_insertionSort keyLE

theorem nodup_sortKeys {l : List (String × String)} (h : l.Nodup) :
    (sortKeys l).Nodup :=
  ((List.perm_insertionSort keyLE l).nodup_iff).mpr h

theorem sorted_sortKeys (l : List (String × String)) :
    List.Sorted keyLE (sortKeys l) :=
  List.sorted_insertionSort keyLE l

/-! ### Lookup and grouping lemmas -/

theorem find?_map_mem {keys : List (String × String)} {k : String × String}
    (f : String × String → ℚ) (hk : k ∈ keys) :
    (keys.map (fun k => (k, f k))).find? (fun p => p.1 == k) = some (k, f k) := by
  induction keys with
  | nil => cases hk
  | cons a as ih =>
    rcases List.mem_cons.mp hk with rfl | hk'
    · simp [List.find?]
    · by_cases hak : a = k
      · subst hak; simp [List.find?]
      · rw [List.map_cons, List.find?]
        have : ((a, f a).1 == k) = false := beq_eq_false_iff_ne.mpr hak
        rw [this]
        exact ih hk'

theorem find?_map_not_mem {keys : List (String × String)} {k : String × String}
    (f : String × String → ℚ) (hk : k ∉ keys) :
    (keys.map (fun k => (k, f k))).find? (fun p => p.1 == k) = none := by
  induction keys with
  | nil => rfl
  | cons a as ih =>
    rw [List.map_cons, List.find?]
    have hak : a ≠ k := fun h => hk (h ▸ List.mem_cons_self a as)
    have : ((a, f a).1 == k) = false := beq_eq_false_iff_ne.mpr hak
    rw [this]
    exact ih (fun h => hk (List.mem_cons_of_mem a h))

theorem lookup0_map (keys : List (String × String)) (f : String × String → ℚ)
    (k : String × String) :
    lookup0 (keys.map (fun k => (k, f k))) k = if k ∈ keys then f k else 0 := by
  by_cases hk : k ∈ keys
  · rw [lookup0, find?_map_mem f hk, if_pos hk]
  · rw [lookup0, find?_map_not_mem f hk, if_neg hk]

theorem rawSum_eq_zero {rows : List Row} {k : String × String}
    (h : ∀ r ∈ rows, rowKey r ≠ some k) : rawSum rows k = 0 := by
  rw [rawSum]
  have : rows.filter (fun r => rowKey r == some k) = [] := by
    rw [List.filter_eq_nil_iff]
    intro r hr
    simpa using h r hr
  rw [this]
  rfl

theorem lookup0_groupOne (rows : List Row) (k : String × String) :
    lookup0 (groupOne rows) k = rawSum rows k := by
  rw [groupOne, lookup0_map]
  by_cases hk : k ∈ sortKeys (dedupFirst (rows.filterMap rowKey))
  · rw [if_pos hk]
  · rw [if_neg hk]
    refine (rawSum_eq_zero ?_).symm
    intro r hr hkey
    exact hk (mem_sortKeys.mpr (mem_dedupFirst.mpr
      (List.mem_filterMap.mpr ⟨r, hr, hkey⟩)))

theorem groupOne_keys (rows : List Row) :
    (groupOne rows).map Prod.fst = sortKeys (dedupFirst (rows.filterMap rowKey)) := by
  rw [groupOne, List.map_map]
  exact List.map_id _

theorem mem_groupOne_keys {rows : List Row} {k : String × String} :
    k ∈ (groupOne rows).map Prod.fst ↔ ∃ r ∈ rows, rowKey r = some k := by
  rw [groupOne_keys, mem_sortKeys, mem_dedupFirst, List.mem_filterMap]

/-! ### Merge lemmas -/

theorem mergeGroups_keys (obG salesG : List ((String × String) × ℚ)) :
    (mergeGroups obG salesG).map MRow.key =
      sortKeys (dedupFirst (obG.map Prod.fst ++ salesG.map Prod.fst)) := by
  rw [mergeGroups, List.map_map]
  exact List.map_id _

theorem mergeGroups_keys_nodup (obG salesG : List ((String × String) × ℚ)) :
    ((mergeGroups obG salesG).map MRow.key).Nodup := by
  rw [mergeGroups_keys]
  exact nodup_sortKeys (nodup_dedupFirst _)

theorem mem_mergeGroups_keys {obG salesG : List ((String × String) × ℚ)}
    {k : String × String} :
    k ∈ (mergeGroups obG salesG).map MRow.key ↔
      k ∈ obG.map Prod.fst ∨ k ∈ salesG.map Prod.fst := by
  rw [mergeGroups_keys, mem_sortKeys, mem_dedupFirst, List.mem_append]

theorem mergeGroups_vals {obG salesG : List ((String × String) × ℚ)}
    {r : MRow} (hr : r ∈ mergeGroups obG salesG) :
    r.obv = lookup0 obG r.key ∧ r.salesv = lookup0 salesG r.key := by
  rw [mergeGroups] at hr
  rcases List.mem_map.mp hr with ⟨k, _, rfl⟩
  exact ⟨rfl, rfl⟩

/-! ### Summation lemmas: group sums add up to per-cluster input sums -/

theorem rawSum_cons (r : Row) (rows : List Row) (k : String × String) :
    rawSum (r :: rows) k =
      (if rowKey r = some k then r.value else 0) + rawSum rows k := by
  rw [rawSum, rawSum]
  by_cases h : rowKey r = some k
  · rw [List.filter_cons_of_pos (by simpa using h), List.map_cons, List.sum_cons,
      if_pos h]
  · rw [List.filter_cons_of_neg (by simpa using h), if_neg h, zero_add]

theorem sum_rawSum_cons (K : List (String × String)) (hK : K.Nodup) (r : Row)
    (rows : List Row) :
    (K.map (rawSum (r :: rows))).sum =
      (K.map (rawSum rows)).sum +
        (match rowKey r with
          | some k0 => if k0 ∈ K then r.value else 0
          | none => 0) := by
  induction K with
  | nil => cases hrk : rowKey r <;> simp
  | cons a as ih =>
    rw [List.map_cons, List.sum_cons, List.map_cons, List.sum_cons, rawSum_cons,
      ih hK.of_cons]
    rcases List.nodup_cons.mp hK with ⟨hanotin, _⟩
    cases hrk : rowKey r with
    | none => simp
    | some k0 =>
      dsimp only
      by_cases hk0a : k0 = a
      · subst hk0a
        rw [if_pos rfl, if_neg hanotin, if_pos (List.mem_cons_self k0 as)]
        ring
      · rw [if_neg (show ¬(some k0 = some a) from fun h => hk0a (Option.some.inj h))]
        by_cases hmem : k0 ∈ as
        · rw [if_pos hmem, if_pos (List.mem_cons_of_mem a hmem)]
          ring
        · rw [if_neg hmem, if_neg (fun h => (List.mem_cons.mp h).elim hk0a hmem)]
          ring

theorem sum_rawSum (rows : List Row) (K : List (String × String)) (hK : K.Nodup) :
    (K.map (rawSum rows)).sum =
      ((rows.filter (fun r =>
          match rowKey r with
          | some k => K.contains k
          | none => false)).map Row.value).sum := by
  induction rows with
  | nil =>
    have h0 : rawSum ([] : List Row) = fun _ => (0 : ℚ) := funext fun _ => rfl
    rw [h0]
    simp
  | cons r rows ih =>
    rw [sum_rawSum_cons K hK r rows, ih]
    cases hrk : rowKey r with
    | none =>
      rw [List.filter_cons_of_neg (by simp [hrk])]
      simp
    | some k0 =>
      dsimp only
      by_cases hmem : k0 ∈ K
      · rw [List.filter_cons_of_pos (by simp [hrk]; exact hmem)]
        rw [List.map_cons, List.sum_cons, if_pos hmem]
        ring
      · rw [List.filter_cons_of_neg (by simp [hrk]; exact hmem)]
        rw [if_neg hmem, add_zero]

theorem filter_keys_sum (rows : List Row) (Kall : List (String × String))
    (hnd : Kall.Nodup) (c : String)
    (hsub : ∀ r ∈ rows, ∀ k, rowKey r = some k → k ∈ Kall) :
    ((Kall.filter (fun k => k.1 == c)).map (rawSum rows)).sum = clusterRawSum rows c := by
  have hfil : rows.filter (fun r =>
        match rowKey r with
        | some k => (Kall.filter (fun k => k.1 == c)).contains k
        | none => false)
      = rows.filter (fun r =>
        match rowKey r with
        | some k => k.1 == c
        | none => false) := by
    apply List.filter_congr
    intro r hr
    cases hrk : rowKey r with
    | none => rfl
    | some k =>
      dsimp only
      have hk : k ∈ Kall := hsub r hr k hrk
      by_cases hc : (k.1 == c) = true
      · rw [hc]
        have hkK : k ∈ Kall.filter (fun k => k.1 == c) := by
          rw [List.mem_filter]
          exact ⟨hk, hc⟩
        exact contains_iff_mem.mpr hkK
      · have hc' : (k.1 == c) = false := Bool.eq_false_iff.mpr hc
        rw [hc']
        refine Bool.eq_false_iff.mpr (fun h => ?_)
        have hkK := contains_iff_mem.mp h
        rw [List.mem_filter] at hkK
        exact hc hkK.2
  rw [sum_rawSum rows _ (hnd.filter _), clusterRawSum, hfil]

/-! ### Structure of the rollup output -/

theorem pivot2Blocks_mem {ob sales : List Row} {tgts : List (String × ℚ)}
    {block : SubtotalRow × List EmpRow} (hb : block ∈ pivot2Blocks ob sales tgts) :
    ∃ c, c ∈ clusterList (mergeGroups (groupOne ob) (groupOne sales)) ∧
      block = (mkSubtotal tgts c ((mergeGroups (groupOne ob) (groupOne sales)).filter
          (fun r => r.key.1 == c)),
        ((mergeGroups (groupOne ob) (groupOne sales)).filter
          (fun r => r.key.1 == c)).map (mkEmpRow tgts c)) := by
  rw [pivot2Blocks] at hb
  rcases List.mem_map.mp hb with ⟨c, hc, rfl⟩
  exact ⟨c, hc, rfl⟩

theorem mkSubtotal_cluster (tgts : List (String × ℚ)) (clust : String)
    (sub : List MRow) : (mkSubtotal tgts clust sub).cluster = clust := rfl

theorem mkSubtotal_obTotal (tgts : List (String × ℚ)) (clust : String)
    (sub : List MRow) :
    (mkSubtotal tgts clust sub).obTotal =
      pyRound ((sub.map MRow.obv).sum / EMP_SCALE) EMP_DEC := rfl

theorem mkSubtotal_salesTotal (tgts : List (String × ℚ)) (clust : String)
    (sub : List MRow) :
    (mkSubtotal tgts clust sub).salesTotal =
      pyRound ((sub.map MRow.salesv).sum / EMP_SCALE) EMP_DEC := rfl

theorem merged_sub_ob_sum (ob sales : List Row) (c : String) :
    (((mergeGroups (groupOne ob) (groupOne sales)).filter
        (fun r => r.key.1 == c)).map MRow.obv).sum = clusterRawSum ob c := by
  have key : (mergeGroups (groupOne ob) (groupOne sales)).filter
        (fun r => r.key.1 == c)
      = ((sortKeys (dedupFirst ((groupOne ob).map Prod.fst ++
          (groupOne sales).map Prod.fst))).filter (fun k => k.1 == c)).map
        (fun k => (⟨k, lookup0 (groupOne ob) k, lookup0 (groupOne sales) k⟩ : MRow)) := by
    rw [mergeGroups, List.filter_map]
    rfl
  rw [key, List.map_map]
  have h3 : (MRow.obv ∘ fun k =>
        (⟨k, lookup0 (groupOne ob) k, lookup0 (groupOne sales) k⟩ : MRow))
      = fun k => rawSum ob k := funext fun k => lookup0_groupOne ob k
  rw [h3]
  exact filter_keys_sum ob _ (nodup_sortKeys (nodup_dedupFirst _)) c
    (fun r hr k hrk => mem_sortKeys.mpr (mem_dedupFirst.mpr
      (List.mem_append.mpr (Or.inl (mem_groupOne_keys.mpr ⟨r, hr, hrk⟩)))))

theorem merged_sub_sales_sum (ob sales : List Row) (c : String) :
    (((mergeGroups (groupOne ob) (groupOne sales)).filter
        (fun r => r.key.1 == c)).map MRow.salesv).sum = clusterRawSum sales c := by
  have key : (mergeGroups (groupOne ob) (groupOne sales)).filter
        (fun r => r.key.1 == c)
      = ((sortKeys (dedupFirst ((groupOne ob).map Prod.fst ++
          (groupOne sales).map Prod.fst))).filter (fun k => k.1 == c)).map
        (fun k => (⟨k, lookup0 (groupOne ob) k, lookup0 (groupOne sales) k⟩ : MRow)) := by
    rw [mergeGroups, List.filter_map]
    rfl
  rw [key, List.map_map]
  have h3 : (MRow.salesv ∘ fun k =>
        (⟨k, lookup0 (groupOne ob) k, lookup0 (groupOne sales) k⟩ : MRow))
      = fun k => rawSum sales k := funext fun k => lookup0_groupOne sales k
  rw [h3]
  exact filter_keys_sum sales _ (nodup_sortKeys (nodup_dedupFirst _)) c
    (fun r hr k hrk => mem_sortKeys.mpr (mem_dedupFirst.mpr
      (List.mem_append.mpr (Or.inr (mem_groupOne_keys.mpr ⟨r, hr, hrk⟩)))))

/-! ### Null-policy structure of subtotal and employee rows -/

theorem mkSubtotal_props (tgts : List (String × ℚ)) (clust : String) (sub : List MRow) :
    ((mkSubtotal tgts clust sub).obRemaining = none ↔
      (mkSubtotal tgts clust sub).target = none) ∧
    ((mkSubtotal tgts clust sub).salesRemaining = none ↔
      (mkSubtotal tgts clust sub).target = none) ∧
    ((mkSubtotal tgts clust sub).obAchiev = none ↔
      ((mkSubtotal tgts clust sub).target = none ∨
        (mkSubtotal tgts clust sub).target = some 0)) ∧
    ((mkSubtotal tgts clust sub).salesAchiev = none ↔
      ((mkSubtotal tgts clust sub).target = none ∨
        (mkSubtotal tgts clust sub).target = some 0)) := by
  rcases h : clusterTarget tgts clust (sub.map fun r => r.key.2) with _ | t
  · simp [mkSubtotal, h]
  · by_cases h0 : pyRound (pyRound t EMP_DEC / EMP_SCALE) EMP_DEC = 0 <;>
      simp [mkSubtotal, h, h0]

theorem mkEmpRow_name (tgts : List (String × ℚ)) (clust : String) (r : MRow) :
    (mkEmpRow tgts clust r).name = r.key.2 := rfl

theorem mkEmpRow_zero (tgts : List (String × ℚ)) (clust : String) (r : MRow)
    (h : (dictGet tgts r.key.2).getD 0 = 0) :
    (mkEmpRow tgts clust r).obRemaining = 0 ∧ (mkEmpRow tgts clust r).obAchiev = 0 ∧
    (mkEmpRow tgts clust r).salesRemaining = 0 ∧
    (mkEmpRow tgts clust r).salesAchiev = 0 := by
  simp only [mkEmpRow, h]
  norm_num

/-! ### Cluster target resolution -/

theorem filterMap_isEmpty_eq_all {α β : Type} (f : α → Option β) (l : List α) :
    (l.filterMap f).isEmpty = l.all (fun x => (f x).isNone) := by
  induction l with
  | nil => rfl
  | cons a as ih => cases hfa : f a <;> simp [List.filterMap_cons, hfa, ih]

theorem sum_filterMap_getD (tgts : List (String × ℚ)) (members : List String) :
    (members.filterMap (dictGet tgts)).sum =
      (members.map (fun nm => (dictGet tgts nm).getD 0)).sum := by
  induction members with
  | nil => rfl
  | cons m ms ih => cases hfm : dictGet tgts m <;> simp [List.filterMap_cons, hfm, ih]

/-! ### The classifier scan loop -/

theorem get_cluster_go_default (s : String) :
    ∀ L : List (String × String), (∀ q ∈ L, strContains s q.1 = false) →
      get_cluster_go s L = DEFAULT_CLUSTER := by
  intro L
  induction L with
  | nil => intro _; rfl
  | cons a as ih =>
    intro h
    rcases a with ⟨p, c⟩
    have hp : strContains s p = false := h (p, c) (List.mem_cons_self _ _)
    rw [get_cluster_go, if_neg (by rw [hp]; exact Bool.false_ne_true)]
    exact ih (fun q hq => h q (List.mem_cons_of_mem _ hq))

theorem get_cluster_go_first (s p c : String) (l2 : List (String × String)) :
    ∀ l1 : List (String × String), strContains s p = true →
      (∀ q ∈ l1, strContains s q.1 = false) →
      get_cluster_go s (l1 ++ (p, c) :: l2) = c := by
  intro l1
  induction l1 with
  | nil =>
    intro hp _
    rw [List.nil_append, get_cluster_go, if_pos hp]
  | cons a as ih =>
    intro hp h
    rcases a with ⟨q1, c1⟩
    have hq : strContains s q1 = false := h (q1, c1) (List.mem_cons_self _ _)
    rw [List.cons_append, get_cluster_go, if_neg (by rw [hq]; exact Bool.false_ne_true)]
    exact ih hp (fun q hq' => h q (List.mem_cons_of_mem _ hq'))

/-! ### Cluster iteration order -/

theorem pivot2Blocks_clusters (ob sales : List Row) (tgts : List (String × ℚ)) :
    (pivot2Blocks ob sales tgts).map (fun b => b.1.cluster) =
      clusterList (mergeGroups (groupOne ob) (groupOne sales)) := by
  rw [pivot2Blocks, List.map_map]
  exact List.map_id _

theorem clusterList_pairwise_lt (ob sales : List Row) :
    (clusterList (mergeGroups (groupOne ob) (groupOne sales))).Pairwise (· < ·) := by
  have hkeys : (mergeGroups (groupOne ob) (groupOne sales)).map (fun r => r.key.1)
      = (sortKeys (dedupFirst ((groupOne ob).map Prod.fst ++
          (groupOne sales).map Prod.fst))).map Prod.fst := by
    rw [mergeGroups, List.map_map]
    rfl
  rw [clusterList, hkeys]
  have hsorted : (sortKeys (dedupFirst ((groupOne ob).map Prod.fst ++
      (groupOne sales).map Prod.fst))).Pairwise keyLE := sorted_sortKeys _
  have hle : ((sortKeys (dedupFirst ((groupOne ob).map Prod.fst ++
      (groupOne sales).map Prod.fst))).map Prod.fst).Pairwise
        (fun a b : String => a ≤ b) :=
    hsorted.map Prod.fst (fun a b hab => by
      rcases keyLE_iff.mp hab with h | ⟨h, _⟩
      · exact le_of_lt h
      · exact le_of_eq h)
  have hle2 := hle.sublist (dedupFirst_sublist _)
  have hnd : (dedupFirst ((sortKeys (dedupFirst ((groupOne ob).map Prod.fst ++
      (groupOne sales).map Prod.fst))).map Prod.fst)).Nodup := nodup_dedupFirst _
  exact (hle2.and hnd).imp (fun hab => lt_of_le_of_ne hab.1 hab.2)

/-! ## Claim theorems -/

unseal Rat.add Rat.mul Rat.inv Rat.sub in
/-- C1, counterexample: at the emitted rounded precision, a cluster subtotal
row's reported sales total (0.01, from raw 0.004 + 0.004) differs from the
sum of its member employee rows' reported sales totals (0 + 0 = 0), so
rollup consistency does not hold at the rounded precision. -/
theorem c1_rollup_rounding_counterexample :
    (pivot2Blocks []
        [⟨.str "Arun", .str "PP1", 1/250⟩, ⟨.str "Abhishek", .str "PP1", 1/250⟩]
        []).map
      (fun b => (b.1.salesTotal, (b.2.map EmpRow.salesTotal).sum)) = [(1/100, 0)] ∧
    (1/100 : ℚ) ≠ 0 := by
  decide

/-- C1, amended: every cluster subtotal row's reported OB and sales totals
equal the rounded (2 decimals, after unit rescaling) sum of the raw measure
values of the input rows classified to that cluster — rollup consistency
holds against the raw member sums before rounding, not against the sum of
the members' already-rounded reported totals. -/
theorem c1_subtotal_eq_rounded_raw_cluster_sum (ob sales : List Row)
    (tgts : List (String × ℚ)) (block : SubtotalRow × List EmpRow)
    (hb : block ∈ pivot2Blocks ob sales tgts) :
    block.1.obTotal = pyRound (clusterRawSum ob block.1.cluster / EMP_SCALE) EMP_DEC ∧
    block.1.salesTotal =
      pyRound (clusterRawSum sales block.1.cluster / EMP_SCALE) EMP_DEC := by
  rcases pivot2Blocks_mem hb with ⟨c, _, rfl⟩
  constructor
  · rw [mkSubtotal_cluster, mkSubtotal_obTotal, merged_sub_ob_sum]
  · rw [mkSubtotal_cluster, mkSubtotal_salesTotal, merged_sub_sales_sum]

unseal Rat.add Rat.mul Rat.inv Rat.sub in
/-- Witness for the amended C1 theorem at a concrete single-employee input. -/
theorem c1_subtotal_witness :
    ((⟨"OD", "OD Total", 40, some 160, some 20, 100, some 100, some 50, some 200⟩,
        [⟨"OD", "Arun", 40, 160, 20, 100, 100, 50, 200⟩]) :
          SubtotalRow × List EmpRow).1.obTotal =
      pyRound (clusterRawSum [⟨.str "Arun", .str "PP1", 40⟩]
        ((⟨"OD", "OD Total", 40, some 160, some 20, 100, some 100, some 50, some 200⟩,
          [⟨"OD", "Arun", 40, 160, 20, 100, 100, 50, 200⟩]) :
            SubtotalRow × List EmpRow).1.cluster / EMP_SCALE) EMP_DEC ∧
    ((⟨"OD", "OD Total", 40, some 160, some 20, 100, some 100, some 50, some 200⟩,
        [⟨"OD", "Arun", 40, 160, 20, 100, 100, 50, 200⟩]) :
          SubtotalRow × List EmpRow).1.salesTotal =
      pyRound (clusterRawSum [⟨.str "Arun", .str "PP1", 100⟩]
        ((⟨"OD", "OD Total", 40, some 160, some 20, 100, some 100, some 50, some 200⟩,
          [⟨"OD", "Arun", 40, 160, 20, 100, 100, 50, 200⟩]) :
            SubtotalRow × List EmpRow).1.cluster / EMP_SCALE) EMP_DEC :=
  c1_subtotal_eq_rounded_raw_cluster_sum
    [⟨.str "Arun", .str "PP1", 40⟩] [⟨.str "Arun", .str "PP1", 100⟩] [("Arun", 200)]
    _ (by decide)

/-- C2: the reconciled (outer-merged) table has pairwise-distinct
(cluster, employee) keys; a key appears in it exactly when it appears in the
grouped OB input or in the grouped sales input; and every reconciled row's OB
and sales totals equal the source group sums over the corresponding input
rows (which are 0 for the side where the key is absent). -/
theorem c2_outer_join_completeness (ob sales : List Row) :
    ((mergeGroups (groupOne ob) (groupOne sales)).map MRow.key).Nodup ∧
    (∀ k : String × String,
      k ∈ (mergeGroups (groupOne ob) (groupOne sales)).map MRow.key ↔
        (k ∈ (groupOne ob).map Prod.fst ∨ k ∈ (groupOne sales).map Prod.fst)) ∧
    (∀ row ∈ mergeGroups (groupOne ob) (groupOne sales),
      row.obv = rawSum ob row.key ∧ row.salesv = rawSum sales row.key) := by
  refine ⟨mergeGroups_keys_nodup _ _, fun k => mem_mergeGroups_keys, fun row hrow => ?_⟩
  have h := mergeGroups_vals hrow
  rw [lookup0_groupOne, lookup0_groupOne] at h
  exact h

unseal Rat.add Rat.mul Rat.inv Rat.sub in
/-- Witness for C2 at a concrete one-row input on each side. -/
theorem c2_outer_join_witness :
    (⟨("OD", "Arun"), 40, 100⟩ : MRow).obv =
        rawSum [⟨.str "Arun", .str "PP1", 40⟩] (⟨("OD", "Arun"), 40, 100⟩ : MRow).key ∧
    (⟨("OD", "Arun"), 40, 100⟩ : MRow).salesv =
        rawSum [⟨.str "Arun", .str "PP1", 100⟩] (⟨("OD", "Arun"), 40, 100⟩ : MRow).key :=
  (c2_outer_join_completeness [⟨.str "Arun", .str "PP1", 40⟩]
    [⟨.str "Arun", .str "PP1", 100⟩]).2.2 _ (by decide)

unseal Rat.add Rat.mul Rat.inv Rat.sub in
/-- C3: on the single-employee scenario (sales row Arun/PP1/100, OB row
Arun/PP1/40, employee target Arun 200) the pipeline emits exactly one OD
cluster block whose subtotal row reports OB total 40, sales total 100,
target 200, OB remaining 160, sales remaining 100, OB achievement 20,
sales achievement 50, and whose single employee row reports the same
values. -/
theorem c3_round_trip_scenario :
    pivot2Blocks [⟨.str "Arun", .str "PP1", 40⟩] [⟨.str "Arun", .str "PP1", 100⟩]
        [("Arun", 200)] =
      [(⟨"OD", "OD Total", 40, some 160, some 20, 100, some 100, some 50, some 200⟩,
        [⟨"OD", "Arun", 40, 160, 20, 100, 100, 50, 200⟩])] := by
  decide

unseal Rat.add Rat.mul Rat.inv Rat.sub in
/-- C4, counterexample: with a strictly negative resolved cluster target
(employee target Arun = -5), the emitted cluster achievement is computed
(-2000), not null, contradicting the claim that achievement is null for
all targets not strictly greater than 0. -/
theorem c4_negative_target_counterexample :
    (pivot2Blocks [⟨.str "Arun", .str "PP1", 40⟩] [⟨.str "Arun", .str "PP1", 100⟩]
        [("Arun", -5)]).map
      (fun b => (b.1.target, b.1.salesAchiev)) = [(some (-5), some (-2000))] ∧
    some (-2000 : ℚ) ≠ (none : Option ℚ) := by
  decide

/-- C4, amended: at cluster granularity remaining is null exactly when the
resolved target is null, and achievement is null exactly when the resolved
target is null or zero (so achievement is computed for any nonzero target,
including strictly negative ones); at employee granularity a zero-or-absent
target yields remaining and achievement equal to 0, never null. -/
theorem c4_null_policy (ob sales : List Row) (tgts : List (String × ℚ))
    (block : SubtotalRow × List EmpRow) (hb : block ∈ pivot2Blocks ob sales tgts) :
    (block.1.obRemaining = none ↔ block.1.target = none) ∧
    (block.1.salesRemaining = none ↔ block.1.target = none) ∧
    (block.1.obAchiev = none ↔ (block.1.target = none ∨ block.1.target = some 0)) ∧
    (block.1.salesAchiev = none ↔ (block.1.target = none ∨ block.1.target = some 0)) ∧
    (∀ e ∈ block.2, (dictGet tgts e.name).getD 0 = 0 →
      e.obRemaining = 0 ∧ e.obAchiev = 0 ∧ e.salesRemaining = 0 ∧
        e.salesAchiev = 0) := by
  rcases pivot2Blocks_mem hb with ⟨c, _, rfl⟩
  refine ⟨(mkSubtotal_props tgts c _).1, (mkSubtotal_props tgts c _).2.1,
    (mkSubtotal_props tgts c _).2.2.1, (mkSubtotal_props tgts c _).2.2.2, ?_⟩
  intro e he h0
  rcases List.mem_map.mp he with ⟨r, _, rfl⟩
  rw [mkEmpRow_name] at h0
  exact mkEmpRow_zero tgts c r h0

unseal Rat.add Rat.mul Rat.inv Rat.sub in
/-- Witness for the amended C4 theorem: with an empty target table the
employee row reports zeros. -/
theorem c4_null_policy_witness :
    (⟨"OD", "Arun", 40, 0, 0, 100, 0, 0, 0⟩ : EmpRow).obRemaining = 0 ∧
    (⟨"OD", "Arun", 40, 0, 0, 100, 0, 0, 0⟩ : EmpRow).obAchiev = 0 ∧
    (⟨"OD", "Arun", 40, 0, 0, 100, 0, 0, 0⟩ : EmpRow).salesRemaining = 0 ∧
    (⟨"OD", "Arun", 40, 0, 0, 100, 0, 0, 0⟩ : EmpRow).salesAchiev = 0 :=
  (c4_null_policy [⟨.str "Arun", .str "PP1", 40⟩] [⟨.str "Arun", .str "PP1", 100⟩] []
    (⟨"OD", "OD Total", 40, none, none, 100, none, none, none⟩,
      [⟨"OD", "Arun", 40, 0, 0, 100, 0, 0, 0⟩]) (by decide)).2.2.2.2
    _ (by decide) (by decide)

unseal Rat.add Rat.mul Rat.inv Rat.sub in
/-- C5: on the BU scenario (code PP1 classified to BU PP, BU target 1000,
sales 100) the emitted row reports sales 100, remaining 900, but the
achievement string is "10.0%" — the f-string of the rounded float — not the
two-decimal "10.00%" stated by the claim. -/
theorem c5_bu_achievement_string :
    buPerformance [⟨.str "Arun", .str "PP1", 100⟩] [] [("PP", 1000)] =
      [⟨"PP", 0, 1000, "0.0%", 100, 900, "10.0%", 1000⟩] ∧
    ("10.0%" : String) ≠ "10.00%" := by
  decide

unseal Rat.add Rat.mul Rat.inv Rat.sub in
/-- C6, counterexample: with sales rows Arun (cluster OD) then Pritesh
(cluster CG), the emitted cluster order is alphabetical (CG before OD) and
differs from first-appearance order in the combined input (OD before CG). -/
theorem c6_first_appearance_counterexample :
    (pivot2Blocks [] [⟨.str "Arun", .str "PP1", 1⟩, ⟨.str "Pritesh", .str "PP1", 2⟩]
        []).map (fun b => b.1.cluster) = ["CG", "OD"] ∧
    specFirstAppearanceClusters
        ([] ++ [⟨.str "Arun", .str "PP1", 1⟩, ⟨.str "Pritesh", .str "PP1", 2⟩]) =
      ["OD", "CG"] ∧
    (["CG", "OD"] : List String) ≠ ["OD", "CG"] := by
  decide

/-- C6, amended: the rollup iterates clusters in strictly ascending
alphabetical (code-point lexicographic) order of the cluster labels —
because grouping sorts keys and the outer merge sorts the joined keys —
not in order of first appearance in the input data. -/
theorem c6_clusters_alphabetical (ob sales : List Row) (tgts : List (String × ℚ)) :
    ((pivot2Blocks ob sales tgts).map (fun b => b.1.cluster)).Pairwise (· < ·) := by
  rw [pivot2Blocks_clusters]
  exact clusterList_pairwise_lt ob sales

unseal Rat.add Rat.mul Rat.inv Rat.sub in
/-- C7, counterexample: for a cluster (OD, sole member Arun) with no
cluster-level override and no member present in the target table, the
resolved target propagates as null (NaN), not 0 as the claim states. -/
theorem c7_no_member_counterexample :
    (pivot2Blocks [] [⟨.str "Arun", .str "PP1", 100⟩] [("Pritesh", 7)]).map
      (fun b => b.1.target) = [none] ∧
    (none : Option ℚ) ≠ some 0 := by
  decide

/-- C7, amended: the resolved cluster target is the target-table entry for
the cluster label when present; otherwise, when at least one member appears
in the table, the sum over every member employee of its target with 0 for
absent members; and when no member appears in the table the target is
unresolved (null), not 0. -/
theorem c7_cluster_target_resolution (tgts : List (String × ℚ)) (clust : String)
    (members : List String) :
    clusterTarget tgts clust members = resolveClusterTargetAmended tgts clust members := by
  rw [clusterTarget, resolveClusterTargetAmended]
  cases hdg : dictGet tgts clust with
  | some t => rfl
  | none =>
    dsimp only
    rw [filterMap_isEmpty_eq_all, sum_filterMap_getD]

/-- C8: the classifier is total by construction; a non-string input maps to
the default cluster; a string matching none of the patterns maps to the
default cluster; and a string maps to the cluster of the first pattern (in
the insertion order of the mapping, case-sensitive substring match) that
occurs in it — first-match-wins, not longest-match. -/
theorem c8_classifier_first_match :
    (get_cluster .na = DEFAULT_CLUSTER) ∧
    (∀ s : String, (∀ q ∈ EMPLOYEE_CLUSTER_MAP, strContains s q.1 = false) →
      get_cluster (.str s) = DEFAULT_CLUSTER) ∧
    (∀ (s p c : String) (l1 l2 : List (String × String)),
      EMPLOYEE_CLUSTER_MAP = l1 ++ (p, c) :: l2 →
      strContains s p = true →
      (∀ q ∈ l1, strContains s q.1 = false) →
      get_cluster (.str s) = c) := by
  refine ⟨rfl, fun s h => ?_, fun s p c l1 l2 heq hp hl1 => ?_⟩
  · exact get_cluster_go_default s EMPLOYEE_CLUSTER_MAP h
  · show get_cluster_go s EMPLOYEE_CLUSTER_MAP = c
    rw [heq]
    exact get_cluster_go_first s p c l2 l1 hp hl1

/-- Witness for C8: "Rahul Arun" matches both the Arun pattern (cluster OD)
and the later Rahul pattern (cluster B+R); the first match wins, giving OD. -/
theorem c8_classifier_witness : get_cluster (.str "Rahul Arun") = "OD" :=
  c8_classifier_first_match.2.2 "Rahul Arun" "Arun" "OD"
    [("Pritesh", "CG"), ("Abinash", "CG"), ("Mayur", "CG"), ("TBH", "CG"),
     ("Arti", "CG")]
    [("Abhishek", "OD"), ("Bodhis", "OD"), ("Mahesh", "OD"),
     ("MD FAZLE MURSHED", "OD"), ("Rahul", "B+R"), ("Harsh", "B+R"),
     ("Vikash", "B+R"), ("Nagender", "B+R"), ("Sunny", "JSR"),
     ("Priyanka Auddy", "JSR")]
    (by decide) (by decide) (by decide)

/-- C9: a request whose sales sheet lacks the Employee Responsible column
dies with an unhandled KeyError raised while building the Cluster column,
before the labelled missing-column validation can run, so the failure is
not the labelled error message the claim requires. -/
theorem c9_missing_employee_column_exception :
    uploadValidate ["Helios Code", "MINR-2025"]
        ["Employee Responsible", "Helios Code", "MINR-2025"] =
      .pyException "KeyError: \x27Employee Responsible\x27" ∧
    (∀ msg : String, uploadValidate ["Helios Code", "MINR-2025"]
        ["Employee Responsible", "Helios Code", "MINR-2025"] ≠ .badRequest msg) := by
  refine ⟨by decide, fun msg h => ?_⟩
  rw [show uploadValidate ["Helios Code", "MINR-2025"]
      ["Employee Responsible", "Helios Code", "MINR-2025"] =
      .pyException "KeyError: \x27Employee Responsible\x27" from by decide] at h
  exact UploadResult.noConfusion h

/-- C10: the BU performance table has exactly one row per key of the BU
targets table, in that table's order; consequently a BU absent from the
targets table labels no output row at all. -/
theorem c10_bu_rows_from_targets (sales ob : List Row) (buT : List (String × ℚ)) :
    (buPerformance sales ob buT).map BURow.bu = buT.map Prod.fst ∧
    (∀ b : String, b ∉ buT.map Prod.fst →
      ∀ r ∈ buPerformance sales ob buT, r.bu ≠ b) := by
  have h1 : (buPerformance sales ob buT).map BURow.bu = buT.map Prod.fst := by
    rw [buPerformance, List.map_map]
    rfl
  refine ⟨h1, fun b hb r hr hrb => ?_⟩
  apply hb
  rw [← h1]
  exact hrb ▸ List.mem_map_of_mem BURow.bu hr

unseal Rat.add Rat.mul Rat.inv Rat.sub in
/-- Witness for C10: a BU (H&D) absent from the targets table labels no row
of a concrete BU performance table. -/
theorem c10_bu_rows_witness :
    (⟨"PP", 0, 1000, "0.0%", 100, 900, "10.0%", 1000⟩ : BURow).bu ≠ "H&D" :=
  (c10_bu_rows_from_targets [⟨.str "Arun", .str "PP1", 100⟩] [] [("PP", 1000)]).2
    "H&D" (by decide) _ (by decide)

end SalesPivot
